import Mathlib

/-!
Verification of `qoc_ag/functions/matrix_exponential_vector_multiplication.py`.

Shallow embedding conventions:
* Numeric scalars (numpy float64 and complex128 values) are modelled by exact
  rationals; every float literal of the source is embedded as the rational it
  denotes in decimal (`1e-16` as `1/10^16`, `2**-53` as `1/2^53`).
* Vectors of dimension `N` are functions `ι → ℚ` and square matrices are
  `Matrix ι ι ℚ`, for a finite nonempty index type `ι` (instantiated at `Fin n`
  for the base system and at `Fin (K+1) × ι` for the augmented block system,
  matching the `(K+1)N` flattened layout of `np.block`).
* The two unbounded `while (1)` loops of the source (`get_s` and the truncation
  loop of `expmat_vec_mul`) are embedded with an explicit fuel parameter and
  return `none` when the fuel runs out; all other loops are bounded `for`
  ranges and are embedded by structural recursion on their trip count.
* A second, list-based embedding (`ListModel`) keeps the raw `numpy` array
  shapes so that malformed (non-square or mismatched) inputs are expressible;
  there the `ValueError` raised by `ndarray.dot` on a dimension mismatch is
  modelled explicitly.
-/

variable {ι : Type} [Fintype ι] [DecidableEq ι] [Nonempty ι]

/-- `_exact_inf_norm(A)` for a dense matrix: `np.linalg.norm(A, np.inf)`, the
maximum over the rows of the sum of absolute values of the entries. -/
def exact_inf_norm (A : Matrix ι ι ℚ) : ℚ :=
  Finset.univ.sup' Finset.univ_nonempty (fun i => ∑ j, |A i j|)

/-- `_exact_inf_norm(B)` applied to a 1-D array, as done for the vector
iterates of `expmat_vec_mul`: `np.linalg.norm(B, np.inf)` on a vector is the
maximum absolute entry. -/
def vec_inf_norm (v : ι → ℚ) : ℚ :=
  Finset.univ.sup' Finset.univ_nonempty (fun i => |v i|)

/-- `trace(A)`: `np.trace`, the sum of the diagonal entries. -/
def trace (A : Matrix ι ι ℚ) : ℚ := ∑ i, A i i

/-- The inner loop of `get_s`:
`for i in range(1, np.int(max_term_notation)): max_term = max_term * norm_A / i`
with an early break as soon as `max_term >= 10 ** 16`.  `count` is the number
of remaining iterations, `i` the current loop index, `acc` the running
`max_term`. -/
def max_term_loop (normA : ℚ) : ℕ → ℕ → ℚ → ℚ
  | 0, _, acc => acc
  | count + 1, i, acc =>
    let acc := acc * normA / (i : ℚ)
    if 10 ^ 16 ≤ acc then acc else max_term_loop normA count (i + 1) acc

/-- The value of `max_term` computed by one iteration of the `get_s` loop:
`max_term_notation = np.floor(norm_A)` and the product loop runs over
`range(1, np.int(max_term_notation))`, i.e. `⌊norm_A⌋ - 1` iterations starting
at `i = 1` from `max_term = 1`. -/
def max_term (normA : ℚ) : ℚ :=
  max_term_loop normA ((⌊normA⌋).toNat - 1) 1 1

/-- The break condition of the `get_s` loop: `10 ** -16 * max_term <= tol`. -/
def get_s_cond (a tol : ℚ) (s : ℕ) : Prop :=
  1 / 10 ^ 16 * max_term (a / (s : ℚ)) ≤ tol

instance (a tol : ℚ) (s : ℕ) : Decidable (get_s_cond a tol s) := by
  unfold get_s_cond; infer_instance

/-- The `while (1)` loop of `get_s`, starting from the current candidate `s`;
`fuel` bounds the number of iterations, `none` means the loop did not break
within `fuel` iterations. -/
def get_s_go (a tol : ℚ) : ℕ → ℕ → Option ℕ
  | _, 0 => none
  | s, fuel + 1 =>
    if get_s_cond a tol s then some s else get_s_go a tol (s + 1) fuel

/-- `get_s(A, tol)`: `s = 1; a = _exact_inf_norm(A)` followed by the search
loop. -/
def get_s (A : Matrix ι ι ℚ) (tol : ℚ) (fuel : ℕ) : Option ℕ :=
  get_s_go (exact_inf_norm A) tol 1 fuel

/-- The `while (1)` truncation loop of `expmat_vec_mul`.  State: the current
term `B`, the accumulator `F`, the previous term norm `c1` and the index `j`.
Each iteration performs `B = A.dot(B) / (s * (j + 1))`, `c2 = norm(B)`,
`F = F + B`, and breaks with `m = j + 1` when `c1 + c2 < tol`.  Returns the
pair `(F, m)`, or `none` when the fuel is exhausted. -/
def trunc_loop (A : Matrix ι ι ℚ) (s : ℕ) (tol : ℚ) :
    ℕ → (ι → ℚ) → (ι → ℚ) → ℚ → ℕ → Option ((ι → ℚ) × ℕ)
  | 0, _, _, _, _ => none
  | fuel + 1, B, F, c1, j =>
    let B1 := fun i => (A.mulVec B) i / ((s : ℚ) * ((j : ℚ) + 1))
    let c2 := vec_inf_norm B1
    if c1 + c2 < tol then some (F + B1, j + 1)
    else trunc_loop A s tol fuel B1 (F + B1) c2 (j + 1)

/-- One doubling pass of `expmat_vec_mul`: `for j in range(m)` performing
`B = A.dot(B) / (s * (j + 1)); F = F + B`.  `count` is the number of remaining
iterations and `j` the current index; returns the final `(B, F)`. -/
def inner_phase (A : Matrix ι ι ℚ) (s : ℕ) :
    ℕ → ℕ → (ι → ℚ) → (ι → ℚ) → ((ι → ℚ) × (ι → ℚ))
  | 0, _, B, F => (B, F)
  | count + 1, j, B, F =>
    let B1 := fun i => (A.mulVec B) i / ((s : ℚ) * ((j : ℚ) + 1))
    inner_phase A s count (j + 1) B1 (F + B1)

/-- The outer doubling loop of `expmat_vec_mul`: `for i in range(1, int(s))`,
each pass re-seeding `B = F` and running `inner_phase` for `m` steps from
`j = 0`.  `count` is the number of remaining passes (`s - 1` at the start). -/
def outer_loop (A : Matrix ι ι ℚ) (s m : ℕ) : ℕ → (ι → ℚ) → (ι → ℚ)
  | 0, F => F
  | count + 1, F => outer_loop A s m count (inner_phase A s m 0 F F).2

/-- `expmat_vec_mul(A, B, tol)` instrumented to also return the internally
chosen scale `s` and truncation order `m`.  Follows the source line by line:
`ident = ident_like(A)`, `n = A.shape[0]`, `mu = trace(A) / n`,
`A = A - mu * ident`, `tol = 1e-16 if tol is None`, `s = get_s(A, tol)`, the
truncation loop, then `s - 1` further doubling passes.  Note the source never
multiplies the result by `exp(mu)` after the trace shift. -/
def expmat_vec_mul_run (A : Matrix ι ι ℚ) (B : ι → ℚ) (tol : Option ℚ)
    (fuel : ℕ) : Option ((ι → ℚ) × ℕ × ℕ) :=
  let ident : Matrix ι ι ℚ := 1
  let n : ℕ := Fintype.card ι
  let mu : ℚ := trace A / (n : ℚ)
  let A1 := A - mu • ident
  let t : ℚ := tol.getD (1 / 10 ^ 16)
  match get_s A1 t fuel with
  | none => none
  | some s =>
    match trunc_loop A1 s t fuel B B (vec_inf_norm B) 0 with
    | none => none
    | some (F, m) => some (outer_loop A1 s m (s - 1) F, s, m)

/-- `expmat_vec_mul(A, B, tol)`: the value returned to the caller. -/
def expmat_vec_mul (A : Matrix ι ι ℚ) (B : ι → ℚ) (tol : Option ℚ)
    (fuel : ℕ) : Option (ι → ℚ) :=
  (expmat_vec_mul_run A B tol fuel).map (fun r => r.1)

/-- Block `(i, j)` of the dense-branch augmented matrix of
`expmat_der_vec_mul` (`control_number = K`).  Row `i`: first entry `A` if
`i == 0` else zeros; then for `j` in `1..K`: `A` if `j == i and i != 0`,
`E[i]` if `j == control_number and j != i`, zeros otherwise.  The guard
`i.val < K` extracting the index for `E` always holds in the branch where it
is evaluated (there `j = K` and `j ≠ i` force `i < K`). -/
def aug_block (A : Matrix ι ι ℚ) {K : ℕ} (E : Fin K → Matrix ι ι ℚ)
    (i j : Fin (K + 1)) : Matrix ι ι ℚ :=
  if j.val = 0 then (if i.val = 0 then A else 0)
  else if j = i ∧ i.val ≠ 0 then A
  else if j.val = K ∧ j ≠ i then (if h : i.val < K then E ⟨i.val, h⟩ else 0)
  else 0

/-- Block `(i, j)` of the sparse-branch augmented matrix: identical branch
structure, with `None` (modelled as `Option.none`) in place of the explicit
zero blocks; `scipy.sparse.bmat` treats `None` as a zero block. -/
def aug_block_sparse (A : Matrix ι ι ℚ) {K : ℕ} (E : Fin K → Matrix ι ι ℚ)
    (i j : Fin (K + 1)) : Option (Matrix ι ι ℚ) :=
  if j.val = 0 then (if i.val = 0 then some A else none)
  else if j = i ∧ i.val ≠ 0 then some A
  else if j.val = K ∧ j ≠ i then some (if h : i.val < K then E ⟨i.val, h⟩ else 0)
  else none

/-- The `(K+1)N × (K+1)N` matrix assembled by `np.block(final_matrix)`,
indexed by (block row, inner row) pairs. -/
def final_matrix (A : Matrix ι ι ℚ) {K : ℕ} (E : Fin K → Matrix ι ι ℚ) :
    Matrix (Fin (K + 1) × ι) (Fin (K + 1) × ι) ℚ :=
  fun p q => aug_block A E p.1 q.1 p.2 q.2

/-- The augmented input vector: `state0 = np.zeros_like(state)` stacked `K`
times above the original state by `np.block([state0, state])`, so block `K`
(the last block) holds the state and blocks `0..K-1` are zero. -/
def aug_state {K : ℕ} (state : ι → ℚ) : Fin (K + 1) × ι → ℚ :=
  fun p => if p.1.val = K then state p.2 else 0

/-- `expmat_der_vec_mul(A, E, tol, state)` instrumented with the scale and
truncation order of the underlying `expmat_vec_mul` call: resolves
`tol = 2**-53` when `tol is None`, builds the augmented matrix and state,
calls `expmat_vec_mul`, and slices the result into `K + 1` blocks of length
`HILBERT_SIZE` in block order. -/
def expmat_der_vec_mul_run (A : Matrix ι ι ℚ) {K : ℕ}
    (E : Fin K → Matrix ι ι ℚ) (tol : Option ℚ) (state : ι → ℚ)
    (fuel : ℕ) : Option ((Fin (K + 1) → ι → ℚ) × ℕ × ℕ) :=
  let t : ℚ := tol.getD (1 / 2 ^ 53)
  (expmat_vec_mul_run (final_matrix A E) (aug_state state) (some t) fuel).map
    (fun r => (fun i c => r.1 (i, c), r.2))

/-- `expmat_der_vec_mul(A, E, tol, state)`: the array of `K + 1` slices
returned to the caller (`states[i] = state[HILBERT_SIZE*i : HILBERT_SIZE*(i+1)]`). -/
def expmat_der_vec_mul (A : Matrix ι ι ℚ) {K : ℕ}
    (E : Fin K → Matrix ι ι ℚ) (tol : Option ℚ) (state : ι → ℚ)
    (fuel : ℕ) : Option (Fin (K + 1) → ι → ℚ) :=
  (expmat_der_vec_mul_run A E tol state fuel).map (fun r => r.1)

/-- Restriction of an augmented vector to its last (block `K`) slice. -/
def last_slice {K : ℕ} (x : Fin (K + 1) × ι → ℚ) : ι → ℚ :=
  fun d => x (Fin.last K, d)

/-- From the words of the spec (refinement counterpart of `aug_block`):
block `[0,0] = A`, block `[i,i] = A` for `i = 1..K`, block `[i,K] = Control_i`
for `i < K`, all remaining blocks zero. -/
def aug_block_spec (A : Matrix ι ι ℚ) {K : ℕ} (E : Fin K → Matrix ι ι ℚ)
    (i j : Fin (K + 1)) : Matrix ι ι ℚ :=
  if i = j then A
  else if h : j.val = K ∧ i.val < K then E ⟨i.val, h.2⟩
  else 0

/-- From the words of the spec: the `(K+1)N` vector formed by stacking `K`
zero blocks above the original state, `[0,...,0,state]`. -/
def aug_state_spec {K : ℕ} (state : ι → ℚ) : Fin (K + 1) × ι → ℚ :=
  fun p => if p.1 = Fin.last K then state p.2 else 0

/-- The threshold table `THETA` of `expm_pade` (constants from table 2.3 of
the reference; the float literals are embedded as the decimal rationals they
denote).  Indices other than the valid Pade orders hold `0` as in the source
tuple. -/
def THETA : ℕ → ℚ
  | 3 => 1495585217958292 / 10 ^ 17
  | 5 => 2539398330063230 / 10 ^ 16
  | 7 => 9504178996162932 / 10 ^ 16
  | 9 => 2097847961257068 / 10 ^ 15
  | 13 => 5371920351148152 / 10 ^ 15
  | _ => 0

/-- `PADE_ORDERS = (3, 5, 7, 9, 13)`. -/
def PADE_ORDERS : List ℕ := [3, 5, 7, 9, 13]

/-- The order-selection loop of `expm_pade`:
`pade_order = None; for p in PADE_ORDERS: if one_norm_ < THETA[p]: pade_order = p`.
Note the loop has no `break`, so a later qualifying order overwrites an
earlier one. -/
def select_pade_order (one_norm_ : ℚ) : Option ℕ :=
  PADE_ORDERS.foldl (fun acc p => if one_norm_ < THETA p then some p else acc) none

/-- The Pade order `expm_pade` actually executes: the selected order, or `13`
in the `pade_order == None` scaling branch. -/
def expm_pade_order (one_norm_ : ℚ) : ℕ :=
  (select_pade_order one_norm_).getD 13

/-- `_expm_vjp_(dfinal_dexpm, exp_matrix, matrix_size)`: the double loop
`dfinal_dmatrix[i, j] = np.sum(np.multiply(dfinal_dexpm[i, :], exp_matrix[j, :]))`. -/
def expm_vjp (dfinal_dexpm exp_matrix : Matrix ι ι ℚ) : Matrix ι ι ℚ :=
  fun i j => ∑ k, dfinal_dexpm i k * exp_matrix j k

namespace ListModel

/-- Python exception classes relevant to the error-handling claims.
`ShapeError` and `NumericalOverflowError` are the classes named by the spec
(they appear nowhere in the source); `ValueError` is the builtin class numpy
raises on a dimension mismatch in `ndarray.dot` or in an elementwise
operation. -/
inductive PyErr
  | ShapeError
  | NumericalOverflowError
  | ValueError
deriving DecidableEq

/-- A 1-D numpy array. -/
abbrev Vec := List ℚ

/-- A 2-D numpy array: a list of rows, not necessarily square. -/
abbrev Mat := List (List ℚ)

/-- `A.dot(B)` for 2-D `A` and 1-D `B`: numpy raises `ValueError` unless the
length of every row of `A` equals the length of `B`. -/
def dotv (A : Mat) (v : Vec) : Except PyErr Vec :=
  if A.all (fun row => row.length = v.length)
  then .ok (A.map (fun row => (List.zipWith (fun a b => a * b) row v).sum))
  else .error .ValueError

/-- Elementwise `F + B` of two 1-D arrays; numpy raises `ValueError` when the
shapes are incompatible (equal lengths modelled here). -/
def vadd (F B : Vec) : Except PyErr Vec :=
  if F.length = B.length
  then .ok (List.zipWith (fun a b => a + b) F B)
  else .error .ValueError

/-- `np.trace(A)`: the sum of the diagonal entries that exist. -/
def traceL (A : Mat) : ℚ :=
  ((List.range A.length).map
    (fun i => (((A.get? i).bind (fun r => r.get? i)).getD 0))).sum

/-- `np.eye(n, m)` as produced by `ident_like` for a dense array. -/
def eyeL (n m : ℕ) : Mat :=
  (List.range n).map (fun i => (List.range m).map
    (fun j => if i = j then (1 : ℚ) else 0))

/-- `mu * ident`. -/
def smulL (c : ℚ) (A : Mat) : Mat := A.map (fun row => row.map (fun x => c * x))

/-- Elementwise `A - C` of two equal-shape 2-D arrays. -/
def msub (A C : Mat) : Mat :=
  List.zipWith (fun r1 r2 => List.zipWith (fun a b => a - b) r1 r2) A C

/-- `np.linalg.norm(A, np.inf)` of a 2-D array: the maximum row sum of
absolute values (`0` for an empty array). -/
def mat_inf_normL (A : Mat) : ℚ :=
  (A.map (fun row => (row.map (fun x => |x|)).sum)).foldr max 0

/-- `np.linalg.norm(v, np.inf)` of a 1-D array: the maximum absolute entry. -/
def vec_inf_normL (v : Vec) : ℚ :=
  (v.map (fun x => |x|)).foldr max 0

/-- The truncation loop of `expmat_vec_mul` on raw arrays, propagating any
`ValueError` of the underlying array operations; `none` means the fuel ran
out before the loop broke. -/
def trunc_loopL (A : Mat) (s : ℕ) (tol : ℚ) :
    ℕ → Vec → Vec → ℚ → ℕ → Option (Except PyErr (Vec × ℕ))
  | 0, _, _, _, _ => none
  | fuel + 1, B, F, c1, j =>
    match dotv A B with
    | .error e => some (.error e)
    | .ok AB =>
      let B1 := AB.map (fun x => x / ((s : ℚ) * ((j : ℚ) + 1)))
      let c2 := vec_inf_normL B1
      match vadd F B1 with
      | .error e => some (.error e)
      | .ok F1 =>
        if c1 + c2 < tol then some (.ok (F1, j + 1))
        else trunc_loopL A s tol fuel B1 F1 c2 (j + 1)

/-- One doubling pass on raw arrays. -/
def inner_phaseL (A : Mat) (s : ℕ) :
    ℕ → ℕ → Vec → Vec → Except PyErr (Vec × Vec)
  | 0, _, B, F => .ok (B, F)
  | count + 1, j, B, F =>
    match dotv A B with
    | .error e => .error e
    | .ok AB =>
      let B1 := AB.map (fun x => x / ((s : ℚ) * ((j : ℚ) + 1)))
      match vadd F B1 with
      | .error e => .error e
      | .ok F1 => inner_phaseL A s count (j + 1) B1 F1

/-- The outer doubling loop on raw arrays. -/
def outer_loopL (A : Mat) (s m : ℕ) : ℕ → Vec → Except PyErr Vec
  | 0, F => .ok F
  | count + 1, F =>
    match inner_phaseL A s m 0 F F with
    | .error e => .error e
    | .ok r => outer_loopL A s m count r.2

/-- `expmat_vec_mul(A, B, tol)` on raw (possibly malformed) numpy arrays.
`some (.error e)` models the call raising the Python exception `e`; `none`
means a `while (1)` loop did not terminate within the fuel.  The source
contains no `try`/`except`, so every exception of an array operation
propagates directly to the caller, as modelled here. -/
def expmat_vec_mulL (A : Mat) (B : Vec) (tol : Option ℚ) (fuel : ℕ) :
    Option (Except PyErr Vec) :=
  let n : ℕ := A.length
  let ident := eyeL A.length (A.headD []).length
  let mu : ℚ := traceL A / (n : ℚ)
  let A1 := msub A (smulL mu ident)
  let t : ℚ := tol.getD (1 / 10 ^ 16)
  match get_s_go (mat_inf_normL A1) t 1 fuel with
  | none => none
  | some s =>
    match trunc_loopL A1 s t fuel B B (vec_inf_normL B) 0 with
    | none => none
    | some (.error e) => some (.error e)
    | some (.ok (F, m)) =>
      match outer_loopL A1 s m (s - 1) F with
      | .error e => some (.error e)
      | .ok r => some (.ok r)

end ListModel

/-- Termination predicate for the `get_s` search on a given input: some fuel
suffices for the loop to break. -/
def get_s_halts (A : Matrix ι ι ℚ) (tol : ℚ) : Prop :=
  ∃ fuel, (get_s A tol fuel).isSome

/-- Termination predicate for a full `expmat_vec_mul` call. -/
def action_halts (A : Matrix ι ι ℚ) (B : ι → ℚ) (tol : Option ℚ) : Prop :=
  ∃ fuel, (expmat_vec_mul A B tol fuel).isSome

-- ===== helper lemmas: norm evaluation at small index types =====

theorem vec_inf_norm_fin1 (v : Fin 1 → ℚ) : vec_inf_norm v = |v 0| := by
  unfold vec_inf_norm
  apply le_antisymm
  · refine Finset.sup'_le _ _ (fun i _ => ?_)
    fin_cases i
    exact le_rfl
  · exact Finset.le_sup' (fun i : Fin 1 => |v i|) (Finset.mem_univ (0 : Fin 1))

theorem vec_inf_norm_fin2 (v : Fin 2 → ℚ) : vec_inf_norm v = max |v 0| |v 1| := by
  unfold vec_inf_norm
  apply le_antisymm
  · refine Finset.sup'_le _ _ (fun i _ => ?_)
    fin_cases i
    · exact le_max_left _ _
    · exact le_max_right _ _
  · exact max_le (Finset.le_sup' (fun i : Fin 2 => |v i|) (Finset.mem_univ (0 : Fin 2)))
      (Finset.le_sup' (fun i : Fin 2 => |v i|) (Finset.mem_univ (1 : Fin 2)))

theorem exact_inf_norm_fin1 (A : Matrix (Fin 1) (Fin 1) ℚ) : exact_inf_norm A = |A 0 0| := by
  unfold exact_inf_norm
  apply le_antisymm
  · refine Finset.sup'_le _ _ (fun i _ => ?_)
    fin_cases i
    simp [Fin.sum_univ_one]
  · have := Finset.le_sup' (fun i : Fin 1 => ∑ j, |A i j|) (Finset.mem_univ (0 : Fin 1))
    simpa [Fin.sum_univ_one] using this

theorem exact_inf_norm_fin2 (A : Matrix (Fin 2) (Fin 2) ℚ) :
    exact_inf_norm A = max (|A 0 0| + |A 0 1|) (|A 1 0| + |A 1 1|) := by
  unfold exact_inf_norm
  apply le_antisymm
  · refine Finset.sup'_le _ _ (fun i _ => ?_)
    fin_cases i
    · simpa [Fin.sum_univ_two] using le_max_left (|A 0 0| + |A 0 1|) (|A 1 0| + |A 1 1|)
    · simpa [Fin.sum_univ_two] using le_max_right (|A 0 0| + |A 0 1|) (|A 1 0| + |A 1 1|)
  · refine max_le ?_ ?_
    · have := Finset.le_sup' (fun i : Fin 2 => ∑ j, |A i j|) (Finset.mem_univ (0 : Fin 2))
      simpa [Fin.sum_univ_two] using this
    · have := Finset.le_sup' (fun i : Fin 2 => ∑ j, |A i j|) (Finset.mem_univ (1 : Fin 2))
      simpa [Fin.sum_univ_two] using this

-- ===== C9 =====

/-- Claim C9: for every downstream gradient `G` and matrix `M = exp(A)`, the custom
reverse-mode rule returns the matrix whose `(i, j)` entry is `sum_k G[i,k] * M[j,k]`;
this is exactly the gradient induced by the first-order approximation
`d(exp(A))/dA_ij = E_ij * exp(A)` (with `E_ij` the elementary matrix), and it equals
the matrix product `G * exp(A)^T`. -/
theorem C9_expm_vjp (G M : Matrix ι ι ℚ) :
    (∀ i j, expm_vjp G M i j
      = ∑ k, ∑ l, G k l * (Matrix.stdBasisMatrix i j (1 : ℚ) * M) k l) ∧
    expm_vjp G M = G * M.transpose := by
  constructor
  · intro i j
    rw [Finset.sum_eq_single i]
    · simp [expm_vjp, Matrix.StdBasisMatrix.mul_left_apply_same]
    · intro k _ hk
      refine Finset.sum_eq_zero (fun l _ => ?_)
      rw [Matrix.StdBasisMatrix.mul_left_apply_of_ne _ _ _ k l hk, mul_zero]
    · intro h
      exact absurd (Finset.mem_univ i) h
  · funext i j
    simp [expm_vjp, Matrix.mul_apply, Matrix.transpose_apply]

/-- Claim C9 witness: the vjp theorem applied to concrete one-by-one matrices
`G = [[3]]`, `M = [[5]]`. -/
theorem C9_expm_vjp_witness :
    (∀ i j, expm_vjp (Matrix.of ![![(3:ℚ)]]) (Matrix.of ![![(5:ℚ)]]) i j
      = ∑ k, ∑ l, (Matrix.of ![![(3:ℚ)]]) k l
          * (Matrix.stdBasisMatrix i j (1 : ℚ) * Matrix.of ![![(5:ℚ)]]) k l) ∧
    expm_vjp (Matrix.of ![![(3:ℚ)]]) (Matrix.of ![![(5:ℚ)]])
      = Matrix.of ![![(3:ℚ)]] * (Matrix.of ![![(5:ℚ)]]).transpose :=
  C9_expm_vjp (Matrix.of ![![(3:ℚ)]]) (Matrix.of ![![(5:ℚ)]])

-- ===== C3 / C10 =====

theorem select_pade_order_eq (nrm : ℚ) :
    select_pade_order nrm = if nrm < THETA 13 then some 13 else none := by
  have t35 : THETA 3 < THETA 5 := by norm_num [THETA]
  have t57 : THETA 5 < THETA 7 := by norm_num [THETA]
  have t79 : THETA 7 < THETA 9 := by norm_num [THETA]
  have t913 : THETA 9 < THETA 13 := by norm_num [THETA]
  unfold select_pade_order PADE_ORDERS
  simp only [List.foldl]
  by_cases h13 : nrm < THETA 13
  · simp [h13]
  · have h9 : ¬ nrm < THETA 9 := fun h => h13 (h.trans t913)
    have h7 : ¬ nrm < THETA 7 := fun h => h9 (h.trans t79)
    have h5 : ¬ nrm < THETA 5 := fun h => h7 (h.trans t57)
    have h3 : ¬ nrm < THETA 3 := fun h => h5 (h.trans t35)
    simp [h3, h5, h7, h9, h13]

/-- Claim C3, amended: the selection loop of `expm_pade` has no break, so it keeps the
LAST (largest) qualifying Pade order rather than the smallest; since the thresholds
increase with the order, the selected order is `13` exactly when the one-norm is below
`THETA[13]` (in particular whenever any threshold is met), and `none` (the order-13
extra-scaling branch) otherwise, so exactly one outcome arises. -/
theorem C3_select_largest (nrm : ℚ) :
    select_pade_order nrm = if nrm < THETA 13 then some 13 else none :=
  select_pade_order_eq nrm

/-- Claim C3, counterexample: for a one-norm of `1/100`, which is below the order-3
threshold `THETA[3]`, the smallest qualifying order is `3`, but the loop selects `13`. -/
theorem C3_smallest_order_cex :
    (1 / 100 : ℚ) < THETA 3 ∧
    select_pade_order (1 / 100) = some 13 ∧
    select_pade_order (1 / 100) ≠ some 3 := by
  refine ⟨by norm_num [THETA], ?_, ?_⟩
  · rw [select_pade_order_eq]
    norm_num [THETA]
  · rw [select_pade_order_eq]
    norm_num [THETA]

/-- Claim C10: for every input one-norm, the order used by `expm_pade` is always `13`
(the selection loop never ends on 3, 5, 7 or 9), the extra-scaling branch is entered
exactly when `THETA[13] <= one_norm`, and no one-norm makes the loop select order 9 —
so `pade9`, and with it the reference to the nonexistent `anp.mtamul`, is unreachable
through `expm`. -/
theorem C10_small_pade_orders_unreachable :
    (∀ nrm : ℚ, expm_pade_order nrm = 13) ∧
    (∀ nrm : ℚ, select_pade_order nrm = none ↔ THETA 13 ≤ nrm) ∧
    (¬ ∃ nrm : ℚ, select_pade_order nrm = some 9) := by
  refine ⟨fun nrm => ?_, fun nrm => ?_, fun ⟨nrm, h⟩ => ?_⟩
  · unfold expm_pade_order
    rw [select_pade_order_eq]
    by_cases h : nrm < THETA 13 <;> simp [h]
  · rw [select_pade_order_eq]
    by_cases h : nrm < THETA 13 <;> simp [h, not_lt, le_of_not_lt]
  · rw [select_pade_order_eq] at h
    by_cases hc : nrm < THETA 13 <;> simp [hc] at h

-- ===== C5 =====

/-- Claim C5, amended: when the tolerance argument is `None`, `expmat_vec_mul` uses the
default `1e-16` while `expmat_der_vec_mul` uses the default `2^-53`; the two defaults
are not the same number. -/
theorem C5_default_tolerances (A : Matrix ι ι ℚ) (v : ι → ℚ) (fuel : ℕ) {K : ℕ}
    (E : Fin K → Matrix ι ι ℚ) (state : ι → ℚ) :
    expmat_vec_mul A v none fuel = expmat_vec_mul A v (some (1 / 10 ^ 16)) fuel ∧
    expmat_der_vec_mul A E none state fuel
      = expmat_der_vec_mul A E (some (1 / 2 ^ 53)) state fuel :=
  ⟨rfl, rfl⟩

/-- Claim C5 witness: the default-tolerance theorem applied to the zero matrix,
`v = [0]`, no controls, fuel 1. -/
theorem C5_default_tolerances_witness :
    expmat_vec_mul (0 : Matrix (Fin 1) (Fin 1) ℚ) ![0] none 1
        = expmat_vec_mul (0 : Matrix (Fin 1) (Fin 1) ℚ) ![0] (some (1 / 10 ^ 16)) 1 ∧
    expmat_der_vec_mul (0 : Matrix (Fin 1) (Fin 1) ℚ)
        (![] : Fin 0 → Matrix (Fin 1) (Fin 1) ℚ) none ![0] 1
      = expmat_der_vec_mul (0 : Matrix (Fin 1) (Fin 1) ℚ)
        (![] : Fin 0 → Matrix (Fin 1) (Fin 1) ℚ) (some (1 / 2 ^ 53)) ![0] 1 :=
  C5_default_tolerances (0 : Matrix (Fin 1) (Fin 1) ℚ) ![0] 1
    (![] : Fin 0 → Matrix (Fin 1) (Fin 1) ℚ) ![0]

theorem mulVec_fin2 (A : Matrix (Fin 2) (Fin 2) ℚ) (v : Fin 2 → ℚ) :
    A.mulVec v = ![A 0 0 * v 0 + A 0 1 * v 1, A 1 0 * v 0 + A 1 1 * v 1] := by
  funext i
  fin_cases i <;> simp [Matrix.mulVec, Matrix.dotProduct, Fin.sum_univ_two]

set_option maxHeartbeats 2000000 in
/-- Claim C5, counterexample: on `A = diag(1/2, -1/2)`, `v = (7e-17, 0)`, calling
`expmat_vec_mul` with `tol = None` gives the same result as `tol = 1e-16` but a
different result from `tol = 2^-53`, so the unspecified-tolerance default of `action`
is `1e-16`, not `2^-53` as the claim states. -/
theorem C5_default_tol_cex :
    expmat_vec_mul (Matrix.of ![![(1:ℚ)/2, 0], ![0, -(1/2)]]) ![7/10^17, 0] none 10
      = expmat_vec_mul (Matrix.of ![![(1:ℚ)/2, 0], ![0, -(1/2)]]) ![7/10^17, 0]
          (some (1/10^16)) 10 ∧
    expmat_vec_mul (Matrix.of ![![(1:ℚ)/2, 0], ![0, -(1/2)]]) ![7/10^17, 0] none 10
      ≠ expmat_vec_mul (Matrix.of ![![(1:ℚ)/2, 0], ![0, -(1/2)]]) ![7/10^17, 0]
          (some (1/2^53)) 10 := by
  have h1 : expmat_vec_mul (Matrix.of ![![(1:ℚ)/2, 0], ![0, -(1/2)]]) ![7/10^17, 0]
      (some (1/10^16)) 10 = some ![91/800000000000000000, 0] := by
    norm_num [expmat_vec_mul, expmat_vec_mul_run, get_s, get_s_go, get_s_cond,
      max_term, max_term_loop, trunc_loop, outer_loop, trace, Fin.sum_univ_two,
      exact_inf_norm_fin2, vec_inf_norm_fin2, mulVec_fin2, max_def,
      abs_of_nonneg, abs_of_nonpos, Matrix.vecHead, Matrix.vecTail, Function.comp,
      Matrix.sub_apply, Matrix.smul_apply, Matrix.one_apply]
  have h2 : expmat_vec_mul (Matrix.of ![![(1:ℚ)/2, 0], ![0, -(1/2)]]) ![7/10^17, 0]
      (some (1/2^53)) 10 = some ![21/200000000000000000, 0] := by
    norm_num [expmat_vec_mul, expmat_vec_mul_run, get_s, get_s_go, get_s_cond,
      max_term, max_term_loop, trunc_loop, outer_loop, trace, Fin.sum_univ_two,
      exact_inf_norm_fin2, vec_inf_norm_fin2, mulVec_fin2, max_def,
      abs_of_nonneg, abs_of_nonpos, Matrix.vecHead, Matrix.vecTail, Function.comp,
      Matrix.sub_apply, Matrix.smul_apply, Matrix.one_apply]
  have h1n : expmat_vec_mul (Matrix.of ![![(1:ℚ)/2, 0], ![0, -(1/2)]]) ![7/10^17, 0]
      none 10 = some ![91/800000000000000000, 0] := h1
  refine ⟨rfl, ?_⟩
  intro hcontra
  rw [h1n, h2] at hcontra
  have h0 := congrFun (Option.some_inj.mp hcontra) 0
  norm_num at h0

theorem mulVec_fin1 (A : Matrix (Fin 1) (Fin 1) ℚ) (v : Fin 1 → ℚ) :
    A.mulVec v = ![A 0 0 * v 0] := by
  funext i
  fin_cases i
  simp [Matrix.mulVec, Matrix.dotProduct, Fin.sum_univ_one]

set_option maxHeartbeats 1000000 in
/-- Claim C2, evaluation at the failing input: for `A = [[2]]`, `v = [1]`,
`tol = 1e-16`, `expmat_vec_mul` returns exactly `v = [1]`: it computes
`exp(A - mu*I) v = exp(0) v` with `mu = trace(A)/1 = 2` and never multiplies back by
`exp(mu) = e^2 ~ 7.389`, so the result is not an approximation of `exp(A) v = e^2 v`
as the claim and the docstring of the function state. -/
theorem C2_trace_shift_uncompensated :
    expmat_vec_mul (Matrix.of ![![(2:ℚ)]]) ![1] (some (1/10^16)) 5 = some ![1] := by
  norm_num [expmat_vec_mul, expmat_vec_mul_run, get_s, get_s_go, get_s_cond,
    max_term, max_term_loop, trunc_loop, outer_loop, trace, Fin.sum_univ_one,
    exact_inf_norm_fin1, vec_inf_norm_fin1, mulVec_fin1, max_def,
    abs_of_nonneg, abs_of_nonpos, Matrix.vecHead, Matrix.vecTail, Function.comp,
    Matrix.sub_apply, Matrix.smul_apply, Matrix.one_apply]

-- ===== zero-matrix and termination helpers =====

theorem exact_inf_norm_zero : exact_inf_norm (0 : Matrix ι ι ℚ) = 0 := by
  unfold exact_inf_norm
  simp [Finset.sup'_const]

theorem vec_inf_norm_zero : vec_inf_norm (0 : ι → ℚ) = 0 := by
  unfold vec_inf_norm
  simp [Finset.sup'_const]

theorem exact_inf_norm_nonneg (A : Matrix ι ι ℚ) : 0 ≤ exact_inf_norm A := by
  obtain ⟨i⟩ := (inferInstance : Nonempty ι)
  calc (0:ℚ) ≤ ∑ j, |A i j| := Finset.sum_nonneg (fun j _ => abs_nonneg _)
    _ ≤ exact_inf_norm A := Finset.le_sup' (fun i => ∑ j, |A i j|) (Finset.mem_univ i)

theorem max_term_zero : max_term 0 = 1 := by
  norm_num [max_term, max_term_loop]

theorem max_term_of_lt_one (x : ℚ) (h0 : 0 ≤ x) (h1 : x < 1) : max_term x = 1 := by
  unfold max_term
  have hf : ⌊x⌋ = 0 := Int.floor_eq_zero_iff.mpr ⟨h0, h1⟩
  rw [hf]
  rfl

theorem get_s_go_tiny_none (tol : ℚ) (h : tol < 1 / 10 ^ 16) :
    ∀ fuel s, get_s_go 0 tol s fuel = none := by
  intro fuel
  induction fuel with
  | zero => intro s; rfl
  | succ f ih =>
    intro s
    unfold get_s_go
    rw [if_neg, ih]
    unfold get_s_cond
    rw [zero_div, max_term_zero, mul_one]
    exact not_le.mpr h

theorem get_s_go_reaches (a tol : ℚ) (s0 : ℕ) (hc : get_s_cond a tol s0) :
    ∀ fuel s, s ≤ s0 → s0 < s + fuel → (get_s_go a tol s fuel).isSome := by
  intro fuel
  induction fuel with
  | zero => intro s h1 h2; omega
  | succ f ih =>
    intro s h1 h2
    unfold get_s_go
    by_cases hcs : get_s_cond a tol s
    · rw [if_pos hcs]; rfl
    · rw [if_neg hcs]
      have hne : s ≠ s0 := fun e => hcs (e ▸ hc)
      exact ih (s + 1) (by omega) (by omega)

-- ===== C4 =====

/-- Claim C4, amended: the scale-factor search `get_s(A, tol)` terminates for every
matrix of finite infinity-norm (including zero-norm inputs) whenever
`tol >= 1e-16` — in particular for both default tolerances; some finite fuel makes
the loop break. (For `0 < tol < 1e-16` it never terminates, see the counterexample.) -/
theorem C4_get_s_terminates (A : Matrix ι ι ℚ) (tol : ℚ) (h : 1 / 10 ^ 16 ≤ tol) :
    ∃ fuel s, get_s A tol fuel = some s := by
  set a := exact_inf_norm A with ha_def
  have ha : 0 ≤ a := exact_inf_norm_nonneg A
  set s0 : ℕ := (⌊a⌋).toNat + 1 with hs0_def
  have hfloor : (⌊a⌋ : ℚ) ≤ (⌊a⌋).toNat := by
    exact_mod_cast Int.self_le_toNat ⌊a⌋
  have hlt : a < (s0 : ℚ) := by
    have h1 : a < ⌊a⌋ + 1 := Int.lt_floor_add_one a
    have : ((⌊a⌋).toNat + 1 : ℚ) = ((s0 : ℕ) : ℚ) := by
      rw [hs0_def]
      push_cast
      ring
    calc a < ⌊a⌋ + 1 := h1
      _ ≤ (⌊a⌋).toNat + 1 := by linarith
      _ = (s0 : ℚ) := this
  have hs0pos : 0 < (s0 : ℚ) := by positivity
  have hcond : get_s_cond a tol s0 := by
    unfold get_s_cond
    have hx0 : 0 ≤ a / (s0 : ℚ) := div_nonneg ha (le_of_lt hs0pos)
    have hx1 : a / (s0 : ℚ) < 1 := (div_lt_one hs0pos).mpr hlt
    rw [max_term_of_lt_one _ hx0 hx1, mul_one]
    exact h
  have := get_s_go_reaches a tol s0 hcond s0 1 (by omega) (by omega)
  rw [Option.isSome_iff_exists] at this
  obtain ⟨s, hs⟩ := this
  exact ⟨s0, s, by rw [get_s, ← ha_def]; exact hs⟩

/-- Claim C4 witness: the termination theorem applied to the zero matrix with
`tol = 1`. -/
theorem C4_get_s_terminates_witness :
    (1 : ℚ) / 10 ^ 16 ≤ 1 ∧
    ∃ fuel s, get_s (0 : Matrix (Fin 1) (Fin 1) ℚ) 1 fuel = some s :=
  ⟨by norm_num, C4_get_s_terminates (0 : Matrix (Fin 1) (Fin 1) ℚ) 1 (by norm_num)⟩

/-- Claim C4, counterexample: for the zero matrix (zero infinity-norm, the degenerate
input the claim highlights) and the positive tolerance `1e-17 < 1e-16`, no amount of
fuel makes `get_s` return: the computed `max_term` is always `1`, so the exit test
`1e-16 * max_term <= tol` never holds and the loop runs forever. -/
theorem C4_tiny_tol_cex : ¬ get_s_halts (0 : Matrix (Fin 1) (Fin 1) ℚ) (1 / 10 ^ 17) := by
  rintro ⟨fuel, h⟩
  rw [get_s, exact_inf_norm_zero,
    get_s_go_tiny_none (1 / 10 ^ 17) (by norm_num) fuel 1] at h
  simp at h

-- ===== C6 =====

theorem zero_mulVec_div (B : ι → ℚ) (c : ℚ) :
    (fun i => ((0 : Matrix ι ι ℚ).mulVec B) i / c) = (0 : ι → ℚ) := by
  funext i
  simp [Matrix.zero_mulVec]

/-- Claim C6, amended: for the zero matrix, every vector `v` and every tolerance
`tol >= 1e-16` (in particular the defaults), `expmat_vec_mul(0, v, tol)` returns
exactly `v`. -/
theorem C6_action_zero_matrix (v : ι → ℚ) (tol : ℚ) (h : 1 / 10 ^ 16 ≤ tol)
    (fuel : ℕ) (hf : 2 ≤ fuel) :
    expmat_vec_mul (0 : Matrix ι ι ℚ) v (some tol) fuel = some v := by
  obtain ⟨f, rfl⟩ : ∃ f, fuel = f + 2 := ⟨fuel - 2, by omega⟩
  have htol0 : (0:ℚ) < tol := lt_of_lt_of_le (by norm_num) h
  have hA1 : (0 : Matrix ι ι ℚ)
      - (trace (0 : Matrix ι ι ℚ) / ((Fintype.card ι : ℕ) : ℚ)) • 1 = 0 := by
    simp [trace]
  have hgs : get_s (0 : Matrix ι ι ℚ) tol (f + 2) = some 1 := by
    rw [get_s, exact_inf_norm_zero]
    show (if get_s_cond 0 tol 1 then some 1 else get_s_go 0 tol 2 (f + 1)) = some 1
    rw [if_pos]
    unfold get_s_cond
    rw [zero_div, max_term_zero, mul_one]
    exact h
  have hcond1 : vec_inf_norm ((0 : ι → ℚ)) = 0 := vec_inf_norm_zero
  by_cases hv : vec_inf_norm v + 0 < tol
  · have htr : trunc_loop (0 : Matrix ι ι ℚ) 1 tol (f + 2) v v (vec_inf_norm v) 0
        = some (v, 1) := by
      show (if vec_inf_norm v + vec_inf_norm (fun i => ((0 : Matrix ι ι ℚ).mulVec v) i / ((1:ℚ) * ((0:ℚ) + 1))) < tol then
          some (v + fun i => ((0 : Matrix ι ι ℚ).mulVec v) i / ((1:ℚ) * ((0:ℚ) + 1)), 1)
        else _) = some (v, 1)
      rw [zero_mulVec_div, vec_inf_norm_zero, if_pos hv]
      simp
    simp only [expmat_vec_mul, expmat_vec_mul_run, Option.getD]
    simp only [hA1, hgs, htr]
    simp [outer_loop]
  · have htr : trunc_loop (0 : Matrix ι ι ℚ) 1 tol (f + 2) v v (vec_inf_norm v) 0
        = some (v, 2) := by
      show (if vec_inf_norm v + vec_inf_norm (fun i => ((0 : Matrix ι ι ℚ).mulVec v) i / ((1:ℚ) * ((0:ℚ) + 1))) < tol then
          some (v + fun i => ((0 : Matrix ι ι ℚ).mulVec v) i / ((1:ℚ) * ((0:ℚ) + 1)), 1)
        else trunc_loop (0 : Matrix ι ι ℚ) 1 tol (f + 1)
          (fun i => ((0 : Matrix ι ι ℚ).mulVec v) i / ((1:ℚ) * ((0:ℚ) + 1)))
          (v + fun i => ((0 : Matrix ι ι ℚ).mulVec v) i / ((1:ℚ) * ((0:ℚ) + 1)))
          (vec_inf_norm (fun i => ((0 : Matrix ι ι ℚ).mulVec v) i / ((1:ℚ) * ((0:ℚ) + 1)))) 1)
          = some (v, 2)
      rw [zero_mulVec_div, vec_inf_norm_zero, if_neg hv, add_zero]
      show (if (0:ℚ) + vec_inf_norm (fun i => ((0 : Matrix ι ι ℚ).mulVec (0 : ι → ℚ)) i / ((1:ℚ) * ((1:ℚ) + 1))) < tol then
          some (v + fun i => ((0 : Matrix ι ι ℚ).mulVec (0 : ι → ℚ)) i / ((1:ℚ) * ((1:ℚ) + 1)), 2)
        else _) = some (v, 2)
      rw [zero_mulVec_div, vec_inf_norm_zero, if_pos (by simpa using htol0)]
      simp
    simp only [expmat_vec_mul, expmat_vec_mul_run, Option.getD]
    simp only [hA1, hgs, htr]
    simp [outer_loop]

/-- Claim C6 witness: the zero-matrix theorem applied to `v = [5]`, `tol = 1`,
fuel 2. -/
theorem C6_action_zero_matrix_witness :
    (1 : ℚ) / 10 ^ 16 ≤ 1 ∧ (2:ℕ) ≤ 2 ∧
    expmat_vec_mul (0 : Matrix (Fin 1) (Fin 1) ℚ) ![5] (some 1) 2 = some ![5] :=
  ⟨by norm_num, le_rfl, C6_action_zero_matrix ![5] 1 (by norm_num) 2 le_rfl⟩

/-- Claim C6, counterexample: the claim quantifies over every positive tolerance, but
for `tol = 1e-17 > 0` the call `action(0, v, tol)` never returns at all — the
`get_s` loop inside it does not terminate — so it does not return `v`. -/
theorem C6_tiny_tol_cex :
    ¬ action_halts (0 : Matrix (Fin 1) (Fin 1) ℚ) ![1] (some (1 / 10 ^ 17)) := by
  rintro ⟨fuel, hs⟩
  have hA1 : (0 : Matrix (Fin 1) (Fin 1) ℚ)
      - (trace (0 : Matrix (Fin 1) (Fin 1) ℚ) / ((Fintype.card (Fin 1) : ℕ) : ℚ)) • 1 = 0 := by
    simp [trace]
  have hgs : get_s (0 : Matrix (Fin 1) (Fin 1) ℚ) (1 / 10 ^ 17) fuel = none := by
    rw [get_s, exact_inf_norm_zero, get_s_go_tiny_none (1 / 10 ^ 17) (by norm_num) fuel 1]
  simp only [expmat_vec_mul, expmat_vec_mul_run, Option.getD] at hs
  simp only [hA1, hgs] at hs
  simp at hs

-- ===== C8 =====

/-- Claim C8: the dense-branch augmented block matrix built by `expmat_der_vec_mul`
has exactly the spec layout — block `[0,0] = A`, block `[i,i] = A` for `i = 1..K`,
block `[i,K] = Control_i` for `i < K`, all remaining blocks zero — the sparse branch
(`None` read as a zero block) builds the identical matrix, and the augmented input
vector stacks `K` zero blocks above the original state. -/
theorem C8_augmented_block_structure {K : ℕ} (A : Matrix ι ι ℚ)
    (E : Fin K → Matrix ι ι ℚ) (state : ι → ℚ) :
    (∀ i j, aug_block A E i j = aug_block_spec A E i j) ∧
    (∀ i j, (aug_block_sparse A E i j).getD 0 = aug_block A E i j) ∧
    aug_state (K := K) state = aug_state_spec state := by
  refine ⟨fun i j => ?_, fun i j => ?_, ?_⟩
  · unfold aug_block aug_block_spec
    split_ifs with h1 h2 h3 h4 h5 h6 h7 h8 h9 h10 h11 h12 <;>
      first
        | rfl
        | (exfalso; simp only [Fin.ext_iff] at *; omega)
  · unfold aug_block aug_block_sparse
    split_ifs <;> rfl
  · funext p
    unfold aug_state aug_state_spec
    by_cases hp : p.1.val = K
    · rw [if_pos hp, if_pos (by simp [Fin.ext_iff, Fin.val_last, hp])]
    · rw [if_neg hp, if_neg (by simp [Fin.ext_iff, Fin.val_last, hp])]

/-- Claim C8 witness: the block-structure theorem applied to `A = [[7]]`, a single
control `E = [[9]]`, `state = [3]`. -/
theorem C8_augmented_block_structure_witness :
    (∀ i j, aug_block (Matrix.of ![![(7:ℚ)]]) ![Matrix.of ![![(9:ℚ)]]] i j
      = aug_block_spec (Matrix.of ![![(7:ℚ)]]) ![Matrix.of ![![(9:ℚ)]]] i j) ∧
    (∀ i j, (aug_block_sparse (Matrix.of ![![(7:ℚ)]]) ![Matrix.of ![![(9:ℚ)]]] i j).getD 0
      = aug_block (Matrix.of ![![(7:ℚ)]]) ![Matrix.of ![![(9:ℚ)]]] i j) ∧
    aug_state (K := 1) (![3] : Fin 1 → ℚ) = aug_state_spec ![3] :=
  C8_augmented_block_structure (Matrix.of ![![(7:ℚ)]]) ![Matrix.of ![![(9:ℚ)]]] ![3]

-- ===== C7 =====

theorem dotv_error_eq (A : ListModel.Mat) (v : ListModel.Vec) (e : ListModel.PyErr)
    (h : ListModel.dotv A v = .error e) : e = ListModel.PyErr.ValueError := by
  unfold ListModel.dotv at h
  split_ifs at h <;> injection h with h1 <;> exact h1.symm

theorem vadd_error_eq (F B : ListModel.Vec) (e : ListModel.PyErr)
    (h : ListModel.vadd F B = .error e) : e = ListModel.PyErr.ValueError := by
  unfold ListModel.vadd at h
  split_ifs at h <;> injection h with h1 <;> exact h1.symm

theorem trunc_loopL_error_eq (A : ListModel.Mat) (s : ℕ) (tol : ℚ) :
    ∀ fuel B F c1 j e, ListModel.trunc_loopL A s tol fuel B F c1 j = some (.error e) →
      e = ListModel.PyErr.ValueError := by
  intro fuel
  induction fuel with
  | zero => intro B F c1 j e h; exact absurd h (by simp [ListModel.trunc_loopL])
  | succ f ih =>
    intro B F c1 j e h
    rw [ListModel.trunc_loopL] at h
    cases hd : ListModel.dotv A B with
    | error e1 =>
      rw [hd] at h
      simp at h
      exact h ▸ dotv_error_eq A B e1 hd
    | ok AB =>
      rw [hd] at h
      simp only at h
      cases hv : ListModel.vadd F (AB.map (fun x => x / ((s : ℚ) * ((j : ℚ) + 1)))) with
      | error e2 =>
        rw [hv] at h
        simp at h
        exact h ▸ vadd_error_eq _ _ e2 hv
      | ok F1 =>
        rw [hv] at h
        simp only at h
        split_ifs at h
        · exact absurd h (by simp)
        · exact ih _ _ _ _ _ h

theorem inner_phaseL_error_eq (A : ListModel.Mat) (s : ℕ) :
    ∀ count j B F e, ListModel.inner_phaseL A s count j B F = .error e →
      e = ListModel.PyErr.ValueError := by
  intro count
  induction count with
  | zero => intro j B F e h; exact absurd h (by simp [ListModel.inner_phaseL])
  | succ c ih =>
    intro j B F e h
    rw [ListModel.inner_phaseL] at h
    cases hd : ListModel.dotv A B with
    | error e1 =>
      rw [hd] at h
      simp at h
      exact h ▸ dotv_error_eq A B e1 hd
    | ok AB =>
      rw [hd] at h
      simp only at h
      cases hv : ListModel.vadd F (AB.map (fun x => x / ((s : ℚ) * ((j : ℚ) + 1)))) with
      | error e2 =>
        rw [hv] at h
        simp at h
        exact h ▸ vadd_error_eq _ _ e2 hv
      | ok F1 =>
        rw [hv] at h
        simp only at h
        exact ih _ _ _ _ h

theorem outer_loopL_error_eq (A : ListModel.Mat) (s m : ℕ) :
    ∀ count F e, ListModel.outer_loopL A s m count F = .error e →
      e = ListModel.PyErr.ValueError := by
  intro count
  induction count with
  | zero => intro F e h; exact absurd h (by simp [ListModel.outer_loopL])
  | succ c ih =>
    intro F e h
    rw [ListModel.outer_loopL] at h
    cases hi : ListModel.inner_phaseL A s m 0 F F with
    | error e1 =>
      rw [hi] at h
      simp at h
      exact h ▸ inner_phaseL_error_eq A s m 0 F F e1 hi
    | ok r =>
      rw [hi] at h
      simp only at h
      exact ih _ _ h

/-- Claim C7, amended: `expmat_vec_mul` performs no shape validation and no
finiteness check of its own; the only exception a call can surface is the
`ValueError` that the underlying numpy array operations raise on a dimension
mismatch — never a `ShapeError` and never a `NumericalOverflowError` — and, since
the function contains no exception handling, that error propagates unchanged to the
immediate caller. -/
theorem C7_only_value_errors (A : ListModel.Mat) (v : ListModel.Vec)
    (tol : Option ℚ) (fuel : ℕ) (e : ListModel.PyErr)
    (h : ListModel.expmat_vec_mulL A v tol fuel = some (.error e)) :
    e = ListModel.PyErr.ValueError := by
  simp only [ListModel.expmat_vec_mulL] at h
  cases hgs : get_s_go (ListModel.mat_inf_normL (ListModel.msub A
      (ListModel.smulL (ListModel.traceL A / (A.length : ℚ))
        (ListModel.eyeL A.length (A.headD []).length))))
      (tol.getD (1 / 10 ^ 16)) 1 fuel with
  | none =>
    rw [hgs] at h
    exact absurd h (by simp)
  | some s =>
    rw [hgs] at h
    simp only at h
    cases htr : ListModel.trunc_loopL (ListModel.msub A
        (ListModel.smulL (ListModel.traceL A / (A.length : ℚ))
          (ListModel.eyeL A.length (A.headD []).length))) s
        (tol.getD (1 / 10 ^ 16)) fuel v v (ListModel.vec_inf_normL v) 0 with
    | none =>
      rw [htr] at h
      exact absurd h (by simp)
    | some r =>
      rw [htr] at h
      cases r with
      | error e1 =>
        simp at h
        exact h ▸ trunc_loopL_error_eq _ _ _ _ _ _ _ _ _ htr
      | ok Fm =>
        obtain ⟨F, m⟩ := Fm
        simp only at h
        cases ho : ListModel.outer_loopL (ListModel.msub A
            (ListModel.smulL (ListModel.traceL A / (A.length : ℚ))
              (ListModel.eyeL A.length (A.headD []).length))) s m (s - 1) F with
        | error e2 =>
          rw [ho] at h
          simp at h
          exact h ▸ outer_loopL_error_eq _ _ _ _ _ _ ho
        | ok r2 =>
          rw [ho] at h
          exact absurd h (by simp)

set_option maxHeartbeats 1000000 in
theorem expmat_vec_mulL_mismatch_eval :
    ListModel.expmat_vec_mulL [[1, 0]] [1] (some 1) 5
      = some (.error ListModel.PyErr.ValueError) := by
  norm_num [ListModel.expmat_vec_mulL, ListModel.trunc_loopL, ListModel.dotv,
    ListModel.vadd, ListModel.msub, ListModel.smulL, ListModel.eyeL, ListModel.traceL,
    ListModel.mat_inf_normL, ListModel.vec_inf_normL, get_s_go, get_s_cond,
    max_term, max_term_loop, List.range_succ, max_def]

/-- Claim C7, counterexample: the malformed input `A = [[1, 0]]` (non-square) with
`v = [1]` makes `expmat_vec_mul` fail with the numpy `ValueError` from `A.dot(v)`,
not with a `ShapeError` as the claim states. -/
theorem C7_shape_error_cex :
    ListModel.expmat_vec_mulL [[1, 0]] [1] (some 1) 5
      = some (.error ListModel.PyErr.ValueError) ∧
    ListModel.expmat_vec_mulL [[1, 0]] [1] (some 1) 5
      ≠ some (.error ListModel.PyErr.ShapeError) := by
  refine ⟨expmat_vec_mulL_mismatch_eval, ?_⟩
  rw [expmat_vec_mulL_mismatch_eval]
  simp

/-- Claim C7 witness: the only-ValueError theorem applied to the concrete malformed
input `A = [[1, 0]]`, `v = [1]`. -/
theorem C7_only_value_errors_witness :
    ListModel.expmat_vec_mulL [[1, 0]] [1] (some 1) 5
      = some (.error ListModel.PyErr.ValueError) ∧
    ListModel.PyErr.ValueError = ListModel.PyErr.ValueError :=
  ⟨expmat_vec_mulL_mismatch_eval,
    C7_only_value_errors [[1, 0]] [1] (some 1) 5 ListModel.PyErr.ValueError
      expmat_vec_mulL_mismatch_eval⟩

-- ===== C1 infrastructure =====

theorem aug_block_diag {K : ℕ} (A : Matrix ι ι ℚ) (E : Fin K → Matrix ι ι ℚ)
    (i : Fin (K + 1)) : aug_block A E i i = A := by
  unfold aug_block
  by_cases hi : i.val = 0
  · rw [if_pos hi, if_pos hi]
  · rw [if_neg hi, if_pos ⟨rfl, hi⟩]

theorem aug_block_last_row {K : ℕ} (A : Matrix ι ι ℚ) (E : Fin K → Matrix ι ι ℚ)
    (j : Fin (K + 1)) (hj : j ≠ Fin.last K) : aug_block A E (Fin.last K) j = 0 := by
  have hjK : j.val ≠ K := by
    intro h
    exact hj (Fin.ext (h.trans (Fin.val_last K).symm))
  unfold aug_block
  by_cases hj0 : j.val = 0
  · rw [if_pos hj0, if_neg]
    rw [Fin.val_last]
    omega
  · rw [if_neg hj0, if_neg, if_neg]
    · exact fun hc => hjK hc.1
    · rintro ⟨hji, -⟩
      exact hj hji

theorem final_entry_last_row {K : ℕ} (A : Matrix ι ι ℚ) (E : Fin K → Matrix ι ι ℚ)
    (c : ℚ) (r : ι) (j : Fin (K + 1)) (d : ι) :
    (final_matrix A E - c • 1) (Fin.last K, r) (j, d)
      = if j = Fin.last K then (A - c • 1) r d else 0 := by
  by_cases hj : j = Fin.last K
  · subst hj
    rw [if_pos rfl]
    simp only [Matrix.sub_apply, Matrix.smul_apply, Matrix.one_apply,
      final_matrix, aug_block_diag, smul_eq_mul, Prod.mk.injEq, true_and]
  · rw [if_neg hj]
    simp only [Matrix.sub_apply, Matrix.smul_apply, Matrix.one_apply, final_matrix,
      smul_eq_mul]
    have h1 : aug_block A E (Fin.last K) j r d = 0 := by
      rw [aug_block_last_row A E j hj]
      rfl
    have h2 : ¬ ((Fin.last K, r) = (j, d)) := by
      rw [Prod.mk.injEq]
      rintro ⟨hc, -⟩
      exact hj hc.symm
    rw [h1, if_neg h2]
    simp

theorem final_shift_mulVec_last {K : ℕ} (A : Matrix ι ι ℚ) (E : Fin K → Matrix ι ι ℚ)
    (c : ℚ) (x : Fin (K + 1) × ι → ℚ) (r : ι) :
    ((final_matrix A E - c • 1).mulVec x) (Fin.last K, r)
      = ((A - c • 1).mulVec (last_slice x)) r := by
  unfold Matrix.mulVec Matrix.dotProduct last_slice
  rw [Fintype.sum_prod_type]
  rw [Finset.sum_eq_single (Fin.last K)]
  · refine Finset.sum_congr rfl (fun d _ => ?_)
    show (final_matrix A E - c • 1) (Fin.last K, r) (Fin.last K, d) * x (Fin.last K, d)
        = (A - c • 1) r d * x (Fin.last K, d)
    rw [final_entry_last_row, if_pos rfl]
  · intro j _ hj
    refine Finset.sum_eq_zero (fun d _ => ?_)
    show (final_matrix A E - c • 1) (Fin.last K, r) (j, d) * x (j, d) = 0
    rw [final_entry_last_row, if_neg hj, zero_mul]
  · intro habs
    exact absurd (Finset.mem_univ _) habs

theorem trunc_loop_replay (A : Matrix ι ι ℚ) (s : ℕ) (tol : ℚ) :
    ∀ fuel B F c1 j F1 m, trunc_loop A s tol fuel B F c1 j = some (F1, m) →
      j < m ∧ F1 = (inner_phase A s (m - j) j B F).2 := by
  intro fuel
  induction fuel with
  | zero =>
    intro B F c1 j F1 m h
    exact absurd h (by simp [trunc_loop])
  | succ f ih =>
    intro B F c1 j F1 m h
    simp only [trunc_loop] at h
    by_cases hc : c1 + vec_inf_norm (fun i => (A.mulVec B) i / ((s:ℚ) * ((j:ℚ) + 1))) < tol
    · rw [if_pos hc] at h
      have h2 := Option.some.inj h
      have hF : F + (fun i => (A.mulVec B) i / ((s:ℚ) * ((j:ℚ) + 1))) = F1 := congrArg Prod.fst h2
      have hm : j + 1 = m := congrArg Prod.snd h2
      subst hm
      refine ⟨by omega, ?_⟩
      have hone : j + 1 - j = 1 := by omega
      rw [hone]
      simp only [inner_phase]
      exact hF.symm
    · rw [if_neg hc] at h
      obtain ⟨hjm, hF⟩ := ih _ _ _ _ _ _ h
      refine ⟨by omega, ?_⟩
      rw [hF]
      have hsplit : m - j = (m - (j + 1)) + 1 := by omega
      rw [hsplit]
      simp only [inner_phase]

theorem inner_phase_last {K : ℕ} (A : Matrix ι ι ℚ) (E : Fin K → Matrix ι ι ℚ)
    (c : ℚ) (s : ℕ) :
    ∀ count j (B F : Fin (K + 1) × ι → ℚ),
      last_slice (inner_phase (final_matrix A E - c • 1) s count j B F).1
          = (inner_phase (A - c • 1) s count j (last_slice B) (last_slice F)).1
        ∧ last_slice (inner_phase (final_matrix A E - c • 1) s count j B F).2
          = (inner_phase (A - c • 1) s count j (last_slice B) (last_slice F)).2 := by
  intro count
  induction count with
  | zero => intro j B F; exact ⟨rfl, rfl⟩
  | succ cnt ih =>
    intro j B F
    simp only [inner_phase]
    have hB1 : last_slice (fun p => ((final_matrix A E - c • 1).mulVec B) p / ((s:ℚ) * ((j:ℚ) + 1)))
        = (fun d => ((A - c • 1).mulVec (last_slice B)) d / ((s:ℚ) * ((j:ℚ) + 1))) := by
      funext d
      show ((final_matrix A E - c • 1).mulVec B) (Fin.last K, d) / ((s:ℚ) * ((j:ℚ) + 1))
          = ((A - c • 1).mulVec (last_slice B)) d / ((s:ℚ) * ((j:ℚ) + 1))
      rw [final_shift_mulVec_last]
    have hAdd : last_slice (F + (fun p => ((final_matrix A E - c • 1).mulVec B) p / ((s:ℚ) * ((j:ℚ) + 1))))
        = last_slice F + (fun d => ((A - c • 1).mulVec (last_slice B)) d / ((s:ℚ) * ((j:ℚ) + 1))) := by
      funext d
      show F (Fin.last K, d) + ((final_matrix A E - c • 1).mulVec B) (Fin.last K, d) / ((s:ℚ) * ((j:ℚ) + 1))
          = last_slice F d + ((A - c • 1).mulVec (last_slice B)) d / ((s:ℚ) * ((j:ℚ) + 1))
      rw [final_shift_mulVec_last]
      rfl
    obtain ⟨h1, h2⟩ := ih (j + 1) (fun p => ((final_matrix A E - c • 1).mulVec B) p / ((s:ℚ) * ((j:ℚ) + 1)))
      (F + (fun p => ((final_matrix A E - c • 1).mulVec B) p / ((s:ℚ) * ((j:ℚ) + 1))))
    rw [h1, h2, hB1, hAdd]
    exact ⟨rfl, rfl⟩

theorem outer_loop_last {K : ℕ} (A : Matrix ι ι ℚ) (E : Fin K → Matrix ι ι ℚ)
    (c : ℚ) (s m : ℕ) :
    ∀ count (F : Fin (K + 1) × ι → ℚ),
      last_slice (outer_loop (final_matrix A E - c • 1) s m count F)
        = outer_loop (A - c • 1) s m count (last_slice F) := by
  intro count
  induction count with
  | zero => intro F; rfl
  | succ cnt ih =>
    intro F
    simp only [outer_loop]
    rw [ih]
    rw [(inner_phase_last A E c s m 0 F F).2]

theorem trace_final_matrix {K : ℕ} (A : Matrix ι ι ℚ) (E : Fin K → Matrix ι ι ℚ) :
    trace (final_matrix A E) = ((K : ℚ) + 1) * trace A := by
  unfold trace
  rw [Fintype.sum_prod_type]
  have hrow : ∀ i : Fin (K + 1), (∑ r, final_matrix A E (i, r) (i, r)) = ∑ r, A r r := by
    intro i
    refine Finset.sum_congr rfl (fun r _ => ?_)
    show aug_block A E i i r r = A r r
    rw [aug_block_diag]
  rw [Finset.sum_congr rfl (fun i _ => hrow i), Finset.sum_const, Finset.card_univ,
    Fintype.card_fin, nsmul_eq_mul]
  push_cast
  ring

theorem mu_final_matrix {K : ℕ} (A : Matrix ι ι ℚ) (E : Fin K → Matrix ι ι ℚ) :
    trace (final_matrix A E) / ((Fintype.card (Fin (K + 1) × ι) : ℕ) : ℚ)
      = trace A / ((Fintype.card ι : ℕ) : ℚ) := by
  rw [trace_final_matrix, Fintype.card_prod, Fintype.card_fin]
  push_cast
  rw [mul_div_mul_left]
  positivity

theorem last_slice_aug_state {K : ℕ} (state : ι → ℚ) :
    last_slice (aug_state (K := K) state) = state := by
  funext d
  show (if (Fin.last K).val = K then state d else 0) = state d
  rw [Fin.val_last, if_pos rfl]

/-- Claim C1, amended: `expmat_der_vec_mul` returns the gradient slices FIRST and the
updated state LAST (as its docstring says): whenever the instrumented call returns
slices `S` with internal scale `s` and truncation order `m`, the final slice
`S[K]` equals the truncated Taylor scheme for `exp(A - (trace A / N) I) * state`
run with the augmented call's own parameters `s` and `m` (the `s - 1` doubling
passes of `outer_loop` applied to the `m`-term sum of `inner_phase`).  The slices
`0..K-1` are the directional-derivative blocks of the augmented exponential.  In
particular `states[0]` is not the propagator action, and `states[K]` matches
`action(A, v, tol)` only up to truncation, not bit for bit, because the standalone
call chooses its own `s` and `m`. -/
theorem C1_der_action_slices {K : ℕ} (A : Matrix ι ι ℚ) (E : Fin K → Matrix ι ι ℚ)
    (tol : Option ℚ) (state : ι → ℚ) (fuel : ℕ) (S : Fin (K + 1) → ι → ℚ) (s m : ℕ)
    (h : expmat_der_vec_mul_run A E tol state fuel = some (S, s, m)) :
    S (Fin.last K)
      = outer_loop (A - (trace A / ((Fintype.card ι : ℕ) : ℚ)) • 1) s m (s - 1)
          ((inner_phase (A - (trace A / ((Fintype.card ι : ℕ) : ℚ)) • 1) s m 0
            state state).2) := by
  simp only [expmat_der_vec_mul_run] at h
  cases hrun : expmat_vec_mul_run (final_matrix A E) (aug_state state)
      (some (tol.getD (1 / 2 ^ 53))) fuel with
  | none =>
    rw [hrun] at h
    exact absurd h (by simp)
  | some r =>
    rw [hrun] at h
    obtain ⟨F, sr, mr⟩ := r
    simp only [Option.map_some', Option.some.injEq, Prod.mk.injEq] at h
    obtain ⟨hS, hs, hm⟩ := h
    subst hs
    subst hm
    simp only [expmat_vec_mul_run, Option.getD_some] at hrun
    rw [mu_final_matrix A E] at hrun
    cases hgs : get_s (final_matrix A E - (trace A / ((Fintype.card ι : ℕ) : ℚ)) • 1)
        (tol.getD (1 / 2 ^ 53)) fuel with
    | none =>
      rw [hgs] at hrun
      exact absurd hrun (by simp)
    | some s1 =>
      rw [hgs] at hrun
      simp only at hrun
      cases htr : trunc_loop
          ((final_matrix A E - (trace A / ((Fintype.card ι : ℕ) : ℚ)) • 1 :
            Matrix (Fin (K + 1) × ι) (Fin (K + 1) × ι) ℚ))
          s1 (tol.getD (1 / 2 ^ 53)) fuel (aug_state (K := K) state)
          (aug_state (K := K) state) (vec_inf_norm (aug_state (K := K) state)) 0 with
      | none =>
        rw [htr] at hrun
        exact absurd hrun (by simp)
      | some q =>
        rw [htr] at hrun
        obtain ⟨F0, m0⟩ := q
        simp only [Option.some.injEq, Prod.mk.injEq] at hrun
        obtain ⟨hF, hs1, hm0⟩ := hrun
        subst hs1
        subst hm0
        obtain ⟨-, hF0⟩ := trunc_loop_replay _ _ _ _ _ _ _ _ _ _ htr
        rw [← hS]
        show last_slice F
          = outer_loop (A - (trace A / ((Fintype.card ι : ℕ) : ℚ)) • 1) s1 m0 (s1 - 1)
              ((inner_phase (A - (trace A / ((Fintype.card ι : ℕ) : ℚ)) • 1) s1 m0 0
                state state).2)
        rw [← hF]
        rw [outer_loop_last A E _ s1 m0 (s1 - 1) F0]
        rw [hF0, Nat.sub_zero]
        rw [(inner_phase_last A E _ s1 m0 0 (aug_state (K := K) state)
          (aug_state (K := K) state)).2]
        rw [last_slice_aug_state]

-- ===== evaluation helpers at product index types (K = 1 in the claims) =====

theorem vec_inf_norm_f21 (v : Fin (1 + 1) × Fin 1 → ℚ) :
    vec_inf_norm v = max |v (0, 0)| |v (1, 0)| := by
  unfold vec_inf_norm
  apply le_antisymm
  · refine Finset.sup'_le _ _ (fun i _ => ?_)
    obtain ⟨a, b⟩ := i
    fin_cases a <;> fin_cases b
    · exact le_max_left _ _
    · exact le_max_right _ _
  · exact max_le
      (Finset.le_sup' (fun i : Fin (1 + 1) × Fin 1 => |v i|)
        (Finset.mem_univ ((0 : Fin (1 + 1)), (0 : Fin 1))))
      (Finset.le_sup' (fun i : Fin (1 + 1) × Fin 1 => |v i|)
        (Finset.mem_univ ((1 : Fin (1 + 1)), (0 : Fin 1))))

theorem sum_univ_f21 (f : Fin (1 + 1) × Fin 1 → ℚ) :
    (∑ q : Fin (1 + 1) × Fin 1, f q) = f (0, 0) + f (1, 0) := by
  rw [Fintype.sum_prod_type, Fin.sum_univ_two]
  simp [Fin.sum_univ_one]

theorem exact_inf_norm_f21 (M : Matrix (Fin (1 + 1) × Fin 1) (Fin (1 + 1) × Fin 1) ℚ) :
    exact_inf_norm M
      = max (|M (0, 0) (0, 0)| + |M (0, 0) (1, 0)|)
          (|M (1, 0) (0, 0)| + |M (1, 0) (1, 0)|) := by
  unfold exact_inf_norm
  have hrow : ∀ p : Fin (1 + 1) × Fin 1, (∑ q, |M p q|) = |M p (0, 0)| + |M p (1, 0)| :=
    fun p => sum_univ_f21 (fun q => |M p q|)
  apply le_antisymm
  · refine Finset.sup'_le _ _ (fun i _ => ?_)
    obtain ⟨a, b⟩ := i
    fin_cases a <;> fin_cases b
    · rw [hrow]
      exact le_max_left _ _
    · rw [hrow]
      exact le_max_right _ _
  · refine max_le ?_ ?_
    · have := Finset.le_sup' (fun p : Fin (1 + 1) × Fin 1 => ∑ q, |M p q|)
        (Finset.mem_univ ((0 : Fin (1 + 1)), (0 : Fin 1)))
      rw [hrow] at this
      exact this
    · have := Finset.le_sup' (fun p : Fin (1 + 1) × Fin 1 => ∑ q, |M p q|)
        (Finset.mem_univ ((1 : Fin (1 + 1)), (0 : Fin 1)))
      rw [hrow] at this
      exact this

theorem mulVec_f21 (M : Matrix (Fin (1 + 1) × Fin 1) (Fin (1 + 1) × Fin 1) ℚ)
    (v : Fin (1 + 1) × Fin 1 → ℚ) :
    M.mulVec v = fun p => M p (0, 0) * v (0, 0) + M p (1, 0) * v (1, 0) := by
  funext p
  unfold Matrix.mulVec Matrix.dotProduct
  exact sum_univ_f21 (fun q => M p q * v q)

set_option maxHeartbeats 2000000 in
theorem C1_run_eval1 :
    expmat_der_vec_mul_run (0 : Matrix (Fin 1) (Fin 1) ℚ) ![Matrix.of ![![(2:ℚ)]]]
      (some 1) ![1] 10 = some (![![(2:ℚ)], ![1]], 1, 3) := by
  norm_num [expmat_der_vec_mul_run, expmat_vec_mul_run, get_s, get_s_go, get_s_cond,
    max_term, max_term_loop, trunc_loop, outer_loop, trace,
    exact_inf_norm_f21, vec_inf_norm_f21, mulVec_f21, sum_univ_f21,
    final_matrix, aug_block, aug_state, max_def,
    abs_of_nonneg, abs_of_nonpos, Matrix.vecHead, Matrix.vecTail, Function.comp,
    Matrix.sub_apply, Matrix.smul_apply, Matrix.one_apply, Prod.ext_iff, Fin.ext_iff]
  funext i c
  fin_cases i <;> fin_cases c <;> norm_num

/-- Claim C1 witness: the slice theorem applied to `A = 0`, one control `E = [[2]]`,
`v = [1]`, `tol = 1`: the run returns slices `([2], [1])` with `s = 1`, `m = 3`,
and the last slice `[1]` is the base truncated scheme. -/
theorem C1_der_action_slices_witness :
    expmat_der_vec_mul_run (0 : Matrix (Fin 1) (Fin 1) ℚ) ![Matrix.of ![![(2:ℚ)]]]
      (some 1) ![1] 10 = some (![![(2:ℚ)], ![1]], 1, 3) ∧
    (![![(2:ℚ)], ![1]] : Fin (1 + 1) → Fin 1 → ℚ) (Fin.last 1)
      = outer_loop ((0 : Matrix (Fin 1) (Fin 1) ℚ)
            - (trace (0 : Matrix (Fin 1) (Fin 1) ℚ) / ((Fintype.card (Fin 1) : ℕ) : ℚ)) • 1)
          1 3 (1 - 1)
          ((inner_phase ((0 : Matrix (Fin 1) (Fin 1) ℚ)
            - (trace (0 : Matrix (Fin 1) (Fin 1) ℚ) / ((Fintype.card (Fin 1) : ℕ) : ℚ)) • 1)
            1 3 0 ![1] ![1]).2) :=
  ⟨C1_run_eval1, C1_der_action_slices 0 ![Matrix.of ![![(2:ℚ)]]] (some 1) ![1] 10
    (![![(2:ℚ)], ![1]]) 1 3 C1_run_eval1⟩

theorem vec_inf_norm_f22 (v : Fin (1 + 1) × Fin 2 → ℚ) :
    vec_inf_norm v
      = max (max |v (0, 0)| |v (0, 1)|) (max |v (1, 0)| |v (1, 1)|) := by
  unfold vec_inf_norm
  apply le_antisymm
  · refine Finset.sup'_le _ _ (fun i _ => ?_)
    obtain ⟨a, b⟩ := i
    fin_cases a <;> fin_cases b
    · exact le_max_of_le_left (le_max_left _ _)
    · exact le_max_of_le_left (le_max_right _ _)
    · exact le_max_of_le_right (le_max_left _ _)
    · exact le_max_of_le_right (le_max_right _ _)
  · refine max_le (max_le ?_ ?_) (max_le ?_ ?_) <;>
      exact Finset.le_sup' (fun i : Fin (1 + 1) × Fin 2 => |v i|) (Finset.mem_univ _)

theorem sum_univ_f22 (f : Fin (1 + 1) × Fin 2 → ℚ) :
    (∑ q : Fin (1 + 1) × Fin 2, f q) = f (0, 0) + f (0, 1) + (f (1, 0) + f (1, 1)) := by
  rw [Fintype.sum_prod_type, Fin.sum_univ_two]
  rw [Fin.sum_univ_two, Fin.sum_univ_two]

theorem exact_inf_norm_f22 (M : Matrix (Fin (1 + 1) × Fin 2) (Fin (1 + 1) × Fin 2) ℚ) :
    exact_inf_norm M
      = max (max (|M (0, 0) (0, 0)| + |M (0, 0) (0, 1)| + (|M (0, 0) (1, 0)| + |M (0, 0) (1, 1)|))
                 (|M (0, 1) (0, 0)| + |M (0, 1) (0, 1)| + (|M (0, 1) (1, 0)| + |M (0, 1) (1, 1)|)))
            (max (|M (1, 0) (0, 0)| + |M (1, 0) (0, 1)| + (|M (1, 0) (1, 0)| + |M (1, 0) (1, 1)|))
                 (|M (1, 1) (0, 0)| + |M (1, 1) (0, 1)| + (|M (1, 1) (1, 0)| + |M (1, 1) (1, 1)|))) := by
  unfold exact_inf_norm
  have hrow : ∀ p : Fin (1 + 1) × Fin 2,
      (∑ q, |M p q|) = |M p (0, 0)| + |M p (0, 1)| + (|M p (1, 0)| + |M p (1, 1)|) :=
    fun p => sum_univ_f22 (fun q => |M p q|)
  apply le_antisymm
  · refine Finset.sup'_le _ _ (fun i _ => ?_)
    obtain ⟨a, b⟩ := i
    fin_cases a <;> fin_cases b <;> rw [hrow]
    · exact le_max_of_le_left (le_max_left _ _)
    · exact le_max_of_le_left (le_max_right _ _)
    · exact le_max_of_le_right (le_max_left _ _)
    · exact le_max_of_le_right (le_max_right _ _)
  · refine max_le (max_le ?_ ?_) (max_le ?_ ?_) <;>
      · rw [← hrow]
        exact Finset.le_sup' (fun p : Fin (1 + 1) × Fin 2 => ∑ q, |M p q|) (Finset.mem_univ _)

theorem mulVec_f22 (M : Matrix (Fin (1 + 1) × Fin 2) (Fin (1 + 1) × Fin 2) ℚ)
    (v : Fin (1 + 1) × Fin 2 → ℚ) :
    M.mulVec v = fun p => M p (0, 0) * v (0, 0) + M p (0, 1) * v (0, 1)
      + (M p (1, 0) * v (1, 0) + M p (1, 1) * v (1, 1)) := by
  funext p
  unfold Matrix.mulVec Matrix.dotProduct
  exact sum_univ_f22 (fun q => M p q * v q)

set_option maxHeartbeats 4000000 in
theorem C1_run_eval2 :
    expmat_der_vec_mul_run (Matrix.of ![![(1:ℚ), 0], ![0, -1]])
      ![(1 : Matrix (Fin 2) (Fin 2) ℚ)] (some 1) ![1, 0] 10
      = some (![![(8:ℚ)/3, 0], ![65/24, 0]], 1, 4) := by
  norm_num [expmat_der_vec_mul_run, expmat_vec_mul_run, get_s, get_s_go, get_s_cond,
    max_term, max_term_loop, trunc_loop, outer_loop, trace,
    exact_inf_norm_f22, vec_inf_norm_f22, mulVec_f22, sum_univ_f22,
    final_matrix, aug_block, aug_state, max_def,
    abs_of_nonneg, abs_of_nonpos, Matrix.vecHead, Matrix.vecTail, Function.comp,
    Matrix.sub_apply, Matrix.smul_apply, Matrix.one_apply, Prod.ext_iff, Fin.ext_iff]
  funext i c
  fin_cases i <;> fin_cases c <;> norm_num

set_option maxHeartbeats 1000000 in
theorem action_eval_zero1 :
    expmat_vec_mul (0 : Matrix (Fin 1) (Fin 1) ℚ) ![1] (some 1) 10 = some ![1] := by
  norm_num [expmat_vec_mul, expmat_vec_mul_run, get_s, get_s_go, get_s_cond,
    max_term, max_term_loop, trunc_loop, outer_loop, trace, Fin.sum_univ_one,
    exact_inf_norm_fin1, vec_inf_norm_fin1, mulVec_fin1, max_def,
    abs_of_nonneg, abs_of_nonpos, Matrix.vecHead, Matrix.vecTail, Function.comp,
    Matrix.sub_apply, Matrix.smul_apply, Matrix.one_apply]

set_option maxHeartbeats 2000000 in
theorem action_eval_diag2 :
    expmat_vec_mul (Matrix.of ![![(1:ℚ), 0], ![0, -1]]) ![1, 0] (some 1) 10
      = some ![(8:ℚ)/3, 0] := by
  norm_num [expmat_vec_mul, expmat_vec_mul_run, get_s, get_s_go, get_s_cond,
    max_term, max_term_loop, trunc_loop, outer_loop, trace, Fin.sum_univ_two,
    exact_inf_norm_fin2, vec_inf_norm_fin2, mulVec_fin2, max_def,
    abs_of_nonneg, abs_of_nonpos, Matrix.vecHead, Matrix.vecTail, Function.comp,
    Matrix.sub_apply, Matrix.smul_apply, Matrix.one_apply,
    -Matrix.cons_mulVec, -Matrix.mulVec_cons]

/-- Claim C1, counterexample.  First input (`A = 0`, `E = [[2]]`, `v = [1]`,
`tol = 1`): `derivative_action` returns `([2], [1])` while `action` returns `[1]`,
so `states[0] = [2]` is the derivative slice, not the propagator action the claim
puts there.  Second input (`A = diag(1, -1)`, `E = I`, `v = (1, 0)`, `tol = 1`):
`derivative_action` returns `states[K] = (65/24, 0)` while `action` returns
`(8/3, 0)` — the augmented call truncates at `m = 4` where the standalone call
truncates at `m = 3` — so even the updated-state slice is not bit-identical to
`action(A, v, tol)`. -/
theorem C1_slice_order_cex :
    expmat_der_vec_mul (0 : Matrix (Fin 1) (Fin 1) ℚ) ![Matrix.of ![![(2:ℚ)]]]
        (some 1) ![1] 10 = some ![![(2:ℚ)], ![1]] ∧
    expmat_vec_mul (0 : Matrix (Fin 1) (Fin 1) ℚ) ![1] (some 1) 10 = some ![1] ∧
    (![![(2:ℚ)], ![1]] : Fin (1 + 1) → Fin 1 → ℚ) 0 ≠ ![1] ∧
    expmat_der_vec_mul (Matrix.of ![![(1:ℚ), 0], ![0, -1]])
        ![(1 : Matrix (Fin 2) (Fin 2) ℚ)] (some 1) ![1, 0] 10
      = some ![![(8:ℚ)/3, 0], ![65/24, 0]] ∧
    expmat_vec_mul (Matrix.of ![![(1:ℚ), 0], ![0, -1]]) ![1, 0] (some 1) 10
      = some ![(8:ℚ)/3, 0] ∧
    (![![(8:ℚ)/3, 0], ![65/24, 0]] : Fin (1 + 1) → Fin 2 → ℚ) (Fin.last 1)
      ≠ ![(8:ℚ)/3, 0] := by
  refine ⟨?_, action_eval_zero1, ?_, ?_, action_eval_diag2, ?_⟩
  · simp only [expmat_der_vec_mul, C1_run_eval1, Option.map_some']
  · intro h
    have h0 := congrFun h 0
    norm_num at h0
  · simp only [expmat_der_vec_mul, C1_run_eval2, Option.map_some']
  · intro h
    have hL : (Fin.last 1 : Fin (1 + 1)) = 1 := rfl
    rw [hL] at h
    have h0 := congrFun h 0
    norm_num at h0
